import Mathlib

/-!
Verification of the hipSPARSELt test-harness and descriptor layer.

Part 1 models the concurrent test-execution harness declared in
`clients/include/rocsparselt_test.hpp` (`thread_pool`, `stream_pool`,
`catch_signals_and_exceptions_as_failures`, `launch_test_on_threads`,
`launch_test_on_streams`, `RocSparseLt_TestName`).  The implementation
translation unit of these entities is not part of the sources, so the
corresponding definitions are modelled from the specification text, as
marked in their doc comments.  The `RUN_TEST_ON_THREADS_STREAMS` macro is
fully visible in the header and is embedded from the source.

Part 2 embeds the descriptor functions of
`library/src/rocsparselt_auxiliary.cpp` (`rocsparselt_matmul_descr_init`,
`rocsparselt_mat_descr_get_attribute`).
-/

namespace HipSparseLtTest

/-- Modelled from the spec: a WorkItem pairs a zero-argument closure with a
write-once completion signal (`std::function<void()>` / `std::promise<void>`
in `thread_pool::submit`).  `id` identifies the completion promise, `body`
abstracts the test closure, and `trapped` records whether the closure is the
signal/exception-trap wrapping of a test body. -/
structure WorkItem where
  id : Nat
  body : Nat
  trapped : Bool
deriving DecidableEq

/-- Modelled from the spec: the observable state of the `thread_pool` whose
`worker_thread`/`submit` implementations are not among the sources.  `queue`
is the FIFO work queue, `submitted`/`started`/`finished` record the history
of submissions, execution starts and completed tasks, `running` maps a
worker index to the item it currently executes, `fulfilled` lists the ids of
the completion promises fulfilled so far, and `done` is the stop flag. -/
structure PoolState where
  queue : List WorkItem
  submitted : List WorkItem
  started : List WorkItem
  running : List (Nat × WorkItem)
  finished : List WorkItem
  fulfilled : List Nat
  done : Bool
deriving DecidableEq

/-- The freshly constructed pool: empty queue, no history, stop flag unset. -/
def initPool : PoolState :=
  ⟨[], [], [], [], [], [], false⟩

/-- Effect of `thread_pool::submit`: the item is appended at the back of the
FIFO queue. -/
def submitItem (s : PoolState) (it : WorkItem) : PoolState :=
  { s with queue := s.queue ++ [it], submitted := s.submitted ++ [it] }

/-- Effect of a worker dequeuing the head item and beginning to execute it
(`worker_thread` takes the front of `m_work_queue`). -/
def startItem (s : PoolState) (w : Nat) (it : WorkItem) (q : List WorkItem) :
    PoolState :=
  { s with queue := q, started := s.started ++ [it],
           running := s.running ++ [(w, it)] }

/-- Removes the first occurrence of a worker/item pair from the running set. -/
def removePair : List (Nat × WorkItem) → Nat × WorkItem → List (Nat × WorkItem)
  | [], _ => []
  | p :: t, q => if p = q then t else p :: removePair t q

/-- Effect of a worker completing its current task and fulfilling the item's
completion promise. -/
def finishItem (s : PoolState) (w : Nat) (it : WorkItem) : PoolState :=
  { s with running := removePair s.running (w, it),
           finished := s.finished ++ [it],
           fulfilled := s.fulfilled ++ [it.id] }

/-- Modelled from the spec: destruction of the pool sets the stop flag, wakes
and joins every worker (join waits for the current task of each worker to
complete), and fulfills the completion signal of every queued-but-unstarted
item as a cancellation no-op, so that no pending signal is dropped. -/
def destroyPool (s : PoolState) : PoolState :=
  { queue := []
    submitted := s.submitted
    started := s.started
    running := []
    finished := s.finished ++ s.running.map Prod.snd
    fulfilled := s.fulfilled ++ (s.running.map Prod.snd).map WorkItem.id
                 ++ s.queue.map WorkItem.id
    done := true }

/-- Modelled from the spec: a single step of one of the pool's `W` symmetric
worker threads.  A worker that is idle may dequeue the head of the FIFO
queue; a worker holding an item may complete it, which fulfills the item's
completion promise. -/
inductive WStep (W : Nat) : PoolState → PoolState → Prop
  | start {s : PoolState} (w : Nat) (it : WorkItem) (q : List WorkItem)
      (hw : w < W) (hidle : w ∉ s.running.map Prod.fst)
      (hq : s.queue = it :: q) :
      WStep W s (startItem s w it q)
  | finish {s : PoolState} (w : Nat) (it : WorkItem)
      (hrun : (w, it) ∈ s.running) :
      WStep W s (finishItem s w it)

/-- Modelled from the spec: a step of the pool system — either a worker step
or a submission.  Each submission carries a freshly constructed promise, so
its id differs from every previously submitted id. -/
inductive PStep (W : Nat) : PoolState → PoolState → Prop
  | work {s t : PoolState} (h : WStep W s t) : PStep W s t
  | submit {s : PoolState} (it : WorkItem)
      (hfresh : it.id ∉ s.submitted.map WorkItem.id) :
      PStep W s (submitItem s it)

/-- States of the pool reachable from the freshly constructed pool. -/
inductive Reach (W : Nat) : PoolState → Prop
  | init : Reach W initPool
  | step {s t : PoolState} (h : Reach W s) (hs : PStep W s t) : Reach W t

/-- Invariant of reachable pool states: submissions split into the started
prefix and the pending queue, promise ids are pairwise distinct, the started
items are exactly the finished ones plus the currently running ones, and the
fulfilled promises are exactly those of finished items. -/
structure PoolInv (s : PoolState) : Prop where
  submitted_eq : s.submitted = s.started ++ s.queue
  ids_nodup : (s.submitted.map WorkItem.id).Nodup
  started_perm : s.started.Perm (s.finished ++ s.running.map Prod.snd)
  fulfilled_eq : s.fulfilled = s.finished.map WorkItem.id

/-- Control state of a thread of execution running `launch_test_on_threads`:
it first submits its `numThreads` wrapped copies of the body, then blocks on
the completion futures one after another, and finally returns. -/
inductive DispCtl
  | submitting (j : Nat)
  | waiting (j : Nat)
  | returned
deriving DecidableEq

/-- Combined state of the dispatching thread and the thread pool. -/
structure DState where
  ctl : DispCtl
  pool : PoolState
deriving DecidableEq

/-- The j-th work item submitted by `launch_test_on_threads` for a test body
`b`: the body wrapped by the signal/exception trap, paired with the j-th
freshly created completion promise. -/
def dispItem (b j : Nat) : WorkItem :=
  ⟨j, b, true⟩

/-- Modelled from the spec: a step of the system consisting of the thread
pool's workers together with one thread executing
`launch_test_on_threads(body, k, numStreams, numDevices)` (whose defining
translation unit is not among the sources).  The dispatcher submits exactly
`k` trap-wrapped copies of the body, then waits on the `k` completion
futures in order; a wait on future `j` can fire only once promise `j` has
been fulfilled.  `numStreams`/`numDevices` only size the stream pool and do
not influence the submission/barrier behaviour modelled here. -/
inductive LTStep (W k b : Nat) : DState → DState → Prop
  | work {p q : PoolState} (c : DispCtl) (h : WStep W p q) :
      LTStep W k b ⟨c, p⟩ ⟨c, q⟩
  | submitMid (j : Nat) (p : PoolState) (h : j + 1 < k) :
      LTStep W k b ⟨.submitting j, p⟩
        ⟨.submitting (j + 1), submitItem p (dispItem b j)⟩
  | submitLast (j : Nat) (p : PoolState) (h : j + 1 = k) :
      LTStep W k b ⟨.submitting j, p⟩ ⟨.waiting 0, submitItem p (dispItem b j)⟩
  | waitMid (j : Nat) (p : PoolState) (h : j + 1 < k)
      (hf : 1 ≤ p.fulfilled.count j) :
      LTStep W k b ⟨.waiting j, p⟩ ⟨.waiting (j + 1), p⟩
  | waitLast (j : Nat) (p : PoolState) (h : j + 1 = k)
      (hf : 1 ≤ p.fulfilled.count j) :
      LTStep W k b ⟨.waiting j, p⟩ ⟨.returned, p⟩

/-- States reachable while `launch_test_on_threads` runs against a freshly
constructed pool. -/
inductive DReach (W k b : Nat) : DState → Prop
  | init : DReach W k b ⟨.submitting 0, initPool⟩
  | step {s t : DState} (h : DReach W k b s) (hs : LTStep W k b s t) :
      DReach W k b t

/-- Invariant tying the dispatcher's control state to the pool: while
submitting, the submissions so far are the first `j` wrapped copies; while
waiting on future `j`, all `k` copies are submitted and the first `j`
promises are fulfilled exactly once; once returned, all `k` promises are
fulfilled exactly once. -/
def DInv (k b : Nat) (s : DState) : Prop :=
  PoolInv s.pool ∧
  match s.ctl with
  | .submitting j => j < k ∧ s.pool.submitted = (List.range j).map (dispItem b)
  | .waiting j => j ≤ k ∧ s.pool.submitted = (List.range k).map (dispItem b) ∧
      ∀ i < j, s.pool.fulfilled.count i = 1
  | .returned => s.pool.submitted = (List.range k).map (dispItem b) ∧
      ∀ i < k, s.pool.fulfilled.count i = 1

/-- Modelled from the spec: the possible behaviours of a test body run under
the signal/exception trap — normal completion, a thrown language-level error
carrying a message, a fatal hardware/process signal, or expiry of the
wall-clock alarm. -/
inductive BodyOutcome
  | ok
  | thrown (msg : String)
  | fatalSignal (name : String)
  | timeout
deriving DecidableEq

/-- One pass/fail record reported to the test framework. -/
structure RunRecord where
  passed : Bool
  message : String
deriving DecidableEq

/-- Modelled from the spec: `catch_signals_and_exceptions_as_failures(test,
set_alarm)`, whose defining translation unit is not among the sources.  It
executes the body synchronously; a thrown error is caught and recorded as a
failure carrying the error's message, a fatal signal is recorded as a
failure naming the signal, an alarm expiry is recorded as a failure naming
the exceeded time budget, and a normal completion is recorded as a pass.
The returned list is the stream of pass/fail records the invocation emits;
returning (rather than diverging or propagating) models that the trap always
returns normally. -/
def catch_signals_and_exceptions_as_failures (test : BodyOutcome)
    (set_alarm : Bool) : List RunRecord :=
  match test, set_alarm with
  | .ok, _ => [{ passed := true, message := "" }]
  | .thrown msg, _ => [{ passed := false, message := msg }]
  | .fatalSignal name, _ => [{ passed := false, message := name }]
  | .timeout, _ => [{ passed := false, message := "test exceeded time budget" }]

/-- A stream handle, identified by the device it is bound to and its index
within that device's slot. -/
def StreamHandle : Type := Nat × Nat
deriving instance DecidableEq for StreamHandle

/-- The `stream_pool` class of `rocsparselt_test.hpp`: a per-device table of
stream handles. -/
structure stream_pool where
  m_streams : List (List StreamHandle)
deriving DecidableEq

/-- Modelled from the spec: `stream_pool::reset(numDevices, numStreams)`,
whose defining translation unit is not among the sources.  It destroys every
previously held stream and then, for each device index below `numDevices`,
selects that device and creates `numStreams` fresh streams stored in that
device's slot. -/
def stream_pool.reset (p : stream_pool) (numDevices numStreams : Nat) :
    stream_pool :=
  ⟨(List.range numDevices).map
    (fun dev => (List.range numStreams).map (fun j => ((dev, j) : StreamHandle)))⟩

/-- Embedding of `stream_pool::operator[]` from the header: `m_streams.at(deviceId)`,
which returns the device's stream sequence and throws an out-of-range error
(modelled by `none`) for an out-of-bounds device id. -/
def stream_pool.index (p : stream_pool) (deviceId : Nat) :
    Option (List StreamHandle) :=
  p.m_streams[deviceId]?

/-- Modelled from the spec: `launch_test_on_streams(test, numStreams,
numDevices)`, whose defining translation unit is not among the sources.  It
performs the stream-pool setup (`reset(numDevices, numStreams)`) and then
runs the body, wrapped by the trap, exactly once on the calling thread; the
populated pool is left available for the body's own internal use.  The
result is the pool after setup together with the emitted records. -/
def launch_test_on_streams (test : BodyOutcome) (numStreams numDevices : Nat)
    (p : stream_pool) : stream_pool × List RunRecord :=
  (p.reset numDevices numStreams,
   catch_signals_and_exceptions_as_failures test false)

/-- Looks up the occurrence count of a finalized name in a table, modelling
`table.find(name)` on the per-call-site `std::unordered_map`. -/
def findCount : List (String × Nat) → String → Option Nat
  | [], _ => none
  | (k, v) :: t, s => if k = s then some v else findCount t s

/-- Replaces the stored occurrence count of a name, modelling assignment
through the map's iterator. -/
def setCount : List (String × Nat) → String → Nat → List (String × Nat)
  | [], s, v => [(s, v)]
  | (k, w) :: t, s, v => if k = s then (s, v) :: t else (k, w) :: setCount t s v

/-- Modelled from the spec: `RocSparseLt_TestName_to_string(table, str)`,
whose defining translation unit is not among the sources.  It looks up the
fully assembled string in the per-call-site table: if absent it stores
count 1 and returns the string unchanged; if present with count `n` it
stores `n + 1` and returns the string with an underscore and the new count
appended.  The result pairs the updated table with the returned name. -/
def RocSparseLt_TestName_to_string (table : List (String × Nat)) (s : String) :
    List (String × Nat) × String :=
  match findCount table s with
  | none => (table ++ [(s, 1)], s)
  | some n => (setCount table s (n + 1), s ++ "_" ++ toString (n + 1))

/-- The table and name produced by the `n`-th request of the same finalized
string `s` against one call site's table, starting from an empty table.  The
`0`-th state is the empty table before any request. -/
def requestN (s : String) : Nat → List (String × Nat) × String
  | 0 => ([], "")
  | n + 1 => RocSparseLt_TestName_to_string (requestN s n).1 s

/-- The fan-out parameters the `RUN_TEST_ON_THREADS_STREAMS` macro reads
from the `Arguments` record. -/
structure Arguments where
  threads : Nat
  streams : Nat
  devices : Nat
  HMM : Bool
deriving DecidableEq

/-- Observable outcome of the `RUN_TEST_ON_THREADS_STREAMS` macro body:
an inconclusive skip (`SUCCEED() ... return` before any dispatch), a HIP
assertion failure from `CHECK_HIP_ERROR`, or a dispatch that records the
stream-pool reset arguments and whether the thread-fanout entry point was
chosen. -/
inductive TestOutcome
  | skippedTooManyDevices
  | skippedHmmNotSupported
  | hipErrorFailure
  | dispatched (threaded : Bool) (resetDevices resetStreams : Nat)
deriving DecidableEq

/-- The HMM check loop of `RUN_TEST_ON_THREADS_STREAMS`, iterating `i` from
`0` while `i < devices`.  Faithful to the source, every iteration queries
`hipDeviceGetAttribute(&flag, hipDeviceAttributeManagedMemory, devices)` —
the device ordinal passed is `devices`, not the loop index `i`.  `managed`
lists the managed-memory support flag of each available device, so the query
fails (models a HIP error caught by `CHECK_HIP_ERROR`) when the ordinal is
out of range.  Returns `some` outcome when the macro returns early inside
the loop and `none` when the loop completes. -/
def hmmCheckLoop (managed : List Bool) (devices : Nat) :
    Nat → Option TestOutcome
  | 0 => none
  | n + 1 =>
    match managed[devices]? with
    | none => some TestOutcome.hipErrorFailure
    | some flag =>
      if flag = false then some TestOutcome.skippedHmmNotSupported
      else hmmCheckLoop managed devices n

/-- The `RUN_TEST_ON_THREADS_STREAMS(test)` macro body from
`rocsparselt_test.hpp`: reads `threads`/`streams`/`devices`/`HMM` from the
`Arguments` record, skips when more devices are requested than available,
runs the HMM support check loop when `HMM` is set, and otherwise resets the
global stream pool to `(devices, streams)` and dispatches via
`LAUNCH_TEST_ON_THREADS` when `threads` is nonzero, else
`LAUNCH_TEST_ON_STREAMS`.  `managed` lists each available device's
managed-memory flag, so `availDevices = managed.length`. -/
def runTestOnThreadsStreams (managed : List Bool) (arg : Arguments) :
    TestOutcome :=
  let availDevices := managed.length
  if arg.devices > availDevices then TestOutcome.skippedTooManyDevices
  else if arg.HMM then
    match hmmCheckLoop managed arg.devices arg.devices with
    | some out => out
    | none => TestOutcome.dispatched (arg.threads ≠ 0) arg.devices arg.streams
  else TestOutcome.dispatched (arg.threads ≠ 0) arg.devices arg.streams

/-- Example work item used to evaluate the pool model on a concrete trace. -/
def exItemA : WorkItem := ⟨0, 7, true⟩

/-- Second example work item, with a distinct promise id. -/
def exItemB : WorkItem := ⟨1, 7, true⟩

/-- Concrete pool state after submitting `exItemA`. -/
def exPool1 : PoolState := submitItem initPool exItemA

/-- Concrete pool state after additionally submitting `exItemB`. -/
def exPool2 : PoolState := submitItem exPool1 exItemB

/-- Concrete pool state after worker 0 dequeues `exItemA`. -/
def exPool3 : PoolState := startItem exPool2 0 exItemA [exItemB]

/-- Concrete combined state after a complete `launch_test_on_threads` run
with one thread, body `5` and one worker: submit, start, finish, wait. -/
def exDispPool1 : PoolState := submitItem initPool (dispItem 5 0)

/-- The pool of the concrete dispatcher trace after worker 0 starts. -/
def exDispPool2 : PoolState := startItem exDispPool1 0 (dispItem 5 0) []

/-- The pool of the concrete dispatcher trace after worker 0 finishes. -/
def exDispPool3 : PoolState := finishItem exDispPool2 0 (dispItem 5 0)

/-- The final combined state of the concrete dispatcher trace. -/
def exDisp4 : DState := ⟨DispCtl.returned, exDispPool3⟩

end HipSparseLtTest

namespace HipSparseLtLib

/-- Return status of the C API, from `rocsparselt-types.h` (the subset of
codes used by the embedded functions). -/
inductive rocsparse_status
  | success
  | invalid_handle
  | invalid_pointer
  | invalid_value
  | not_implemented
deriving DecidableEq

/-- Matrix type tag set by the two matrix-descriptor constructors. -/
inductive rocsparselt_matrix_type
  | dense
  | structured
deriving DecidableEq

/-- Value datatypes: the five cases distinguished by the compute-type switch
in `rocsparselt_matmul_descr_init`. -/
inductive rocsparselt_datatype
  | f16_r
  | bf16_r
  | i8_r
  | f8_r
  | bf8_r
deriving DecidableEq

/-- Compute types accepted by `rocsparselt_matmul_descr_init`. -/
inductive rocsparselt_compute_type
  | f32
  | i32
deriving DecidableEq

/-- Transpose operations, stored untouched in the matmul descriptor. -/
inductive rocsparse_operation
  | non_transpose
  | transpose
  | conjugate_transpose
deriving DecidableEq

/-- The attributes array of a matrix descriptor is indexed by this enum. -/
inductive rocsparselt_mat_descr_attribute
  | mat_num_batches
  | mat_batch_stride
deriving DecidableEq

/-- One slot of a descriptor's attribute array: the stored bytes and the
recorded `data_size` (bytes are modelled as naturals). -/
structure AttrData where
  data : List Nat
  data_size : Nat
deriving DecidableEq

/-- The matrix descriptor `_rocsparselt_mat_descr` (fields read by the
embedded operations; the geometry fields `m`, `n`, `ld`, `alignment`,
`order`, `sparsity` are stored but never read by them and are omitted). -/
structure _rocsparselt_mat_descr where
  m_type : rocsparselt_matrix_type
  type : rocsparselt_datatype
  attr_num_batches : AttrData
  attr_batch_stride : AttrData
deriving DecidableEq

/-- Embedding of `matDescr->attributes[matAttribute]`. -/
def attributesGet (d : _rocsparselt_mat_descr) :
    rocsparselt_mat_descr_attribute → AttrData
  | .mat_num_batches => d.attr_num_batches
  | .mat_batch_stride => d.attr_batch_stride

/-- The matmul descriptor `_rocsparselt_matmul_descr` as filled in by
`rocsparselt_matmul_descr_init`. -/
structure _rocsparselt_matmul_descr where
  op_A : rocsparse_operation
  op_B : rocsparse_operation
  matrix_A : _rocsparselt_mat_descr
  matrix_B : _rocsparselt_mat_descr
  matrix_C : _rocsparselt_mat_descr
  matrix_D : _rocsparselt_mat_descr
  compute_type : rocsparselt_compute_type
deriving DecidableEq

/-- The compute-type switch of `rocsparselt_matmul_descr_init`: for
bf16/bf8/f16/f8 value types the compute type must be `f32`, for i8 it must
be `i32`; `false` means the function throws `invalid_value`. -/
def computeTypeOk (t : rocsparselt_datatype)
    (ct : rocsparselt_compute_type) : Bool :=
  match t with
  | .bf16_r | .bf8_r | .f16_r | .f8_r => decide (ct = rocsparselt_compute_type.f32)
  | .i8_r => decide (ct = rocsparselt_compute_type.i32)

/-- Embedding of `rocsparselt_matmul_descr_init` from `rocsparselt_auxiliary.cpp`.
Nullable pointers are modelled by `Option`; `matmulDescrPtr` is `false` when
the out-parameter pointer is null.  The second component models the
allocation written through the out parameter (`none` when nothing was
allocated). -/
def rocsparselt_matmul_descr_init (handle : Option Unit)
    (matmulDescrPtr : Bool) (opA opB : rocsparse_operation)
    (matA matB matC matD : Option _rocsparselt_mat_descr)
    (computeType : rocsparselt_compute_type) :
    rocsparse_status × Option _rocsparselt_matmul_descr :=
  match handle, matA, matB, matC, matD with
  | Option.none, _, _, _, _ => (rocsparse_status.invalid_handle, none)
  | some _, some mA, some mB, some mC, some mD =>
    if matmulDescrPtr = false then (rocsparse_status.invalid_pointer, none)
    else if mA.m_type ≠ rocsparselt_matrix_type.structured
        ∨ mB.m_type ≠ rocsparselt_matrix_type.dense then
      (rocsparse_status.not_implemented, none)
    else if mA.type ≠ mB.type ∨ mA.type ≠ mC.type ∨ mA.type ≠ mD.type then
      (rocsparse_status.invalid_value, none)
    else if computeTypeOk mA.type computeType = false then
      (rocsparse_status.invalid_value, none)
    else
      (rocsparse_status.success,
       some ⟨opA, opB, mA, mB, mC, mD, computeType⟩)
  | some _, _, _, _, _ => (rocsparse_status.invalid_pointer, none)

/-- The compute type the claim requires for each value datatype:
`rocsparselt_compute_i32` for i8 inputs and `rocsparselt_compute_f32` for
the bf16/bf8/f16/f8 inputs. -/
def claimedRequiredCompute : rocsparselt_datatype → rocsparselt_compute_type
  | .i8_r => rocsparselt_compute_type.i32
  | _ => rocsparselt_compute_type.f32

/-- The status the claim predicts for `rocsparselt_matmul_descr_init` with
non-null handle and descriptor pointers, stated in the claim's own shape. -/
def claimedMatmulInitStatus (mA mB mC mD : _rocsparselt_mat_descr)
    (ct : rocsparselt_compute_type) : rocsparse_status :=
  if ¬ (mA.m_type = rocsparselt_matrix_type.structured
        ∧ mB.m_type = rocsparselt_matrix_type.dense) then
    rocsparse_status.not_implemented
  else if ¬ (mA.type = mB.type ∧ mB.type = mC.type ∧ mC.type = mD.type) then
    rocsparse_status.invalid_value
  else if ct ≠ claimedRequiredCompute mA.type then
    rocsparse_status.invalid_value
  else rocsparse_status.success

/-- Embedding of `memcpy(dst, src, n)` on byte lists: the first `n` bytes of `src`
overwrite the first `n` bytes of `dst` (meaningful when `src` holds at least
`n` bytes, which `set_attribute` guarantees for stored attributes). -/
def memcpyList (dst src : List Nat) (n : Nat) : List Nat :=
  src.take n ++ dst.drop n

/-- Embedding of `rocsparselt_mat_descr_get_attribute` from `rocsparselt_auxiliary.cpp`.
Null pointers are modelled by `Option`; `dataSize` is a `size_t`, so the
`dataSize <= 0` check is `dataSize = 0`.  The second component is the
caller's buffer after the call: on the success path the function copies
`min(dataSize, attributes[matAttribute].data_size)` bytes into it. -/
def rocsparselt_mat_descr_get_attribute (handle : Option Unit)
    (matDescr : Option _rocsparselt_mat_descr)
    (matAttribute : rocsparselt_mat_descr_attribute)
    (data : Option (List Nat)) (dataSize : Nat) :
    rocsparse_status × Option (List Nat) :=
  match handle, matDescr, data with
  | Option.none, _, _ => (rocsparse_status.invalid_handle, data)
  | some _, Option.none, _ => (rocsparse_status.invalid_pointer, data)
  | some _, some _, Option.none => (rocsparse_status.invalid_pointer, data)
  | some _, some d, some buf =>
    if dataSize = 0 then (rocsparse_status.invalid_value, some buf)
    else
      let a := attributesGet d matAttribute
      (rocsparse_status.success,
       some (memcpyList buf a.data (min dataSize a.data_size)))

/-- Example matrix descriptor with a three-byte `num_batches` attribute,
used to evaluate the attribute getter on a concrete input. -/
def exMat : _rocsparselt_mat_descr :=
  ⟨rocsparselt_matrix_type.structured, rocsparselt_datatype.f16_r,
   ⟨[10, 20, 30], 3⟩, ⟨[0], 1⟩⟩

end HipSparseLtLib

namespace HipSparseLtTest

theorem perm_cons_removePair {l : List (Nat × WorkItem)} {q : Nat × WorkItem}
    (h : q ∈ l) : l.Perm (q :: removePair l q) := by
  induction l with
  | nil => cases h
  | cons p t ih =>
    by_cases hpq : p = q
    · subst hpq
      simp [removePair]
    · have hq : q ∈ t := by
        cases h with
        | head => exact absurd rfl hpq
        | tail _ h => exact h
      have := (ih hq).cons p
      refine this.trans ?_
      simpa [removePair, hpq] using List.Perm.swap q p (removePair t q)

theorem poolInv_init : PoolInv initPool := by
  constructor <;> simp [initPool]

theorem poolInv_submit {s : PoolState} (h : PoolInv s) (it : WorkItem)
    (hfresh : it.id ∉ s.submitted.map WorkItem.id) :
    PoolInv (submitItem s it) := by
  obtain ⟨h1, h2, h3, h4⟩ := h
  refine ⟨?_, ?_, ?_, ?_⟩
  · simp [submitItem, h1]
  · simp only [submitItem, List.map_append, List.nodup_append]
    exact ⟨h2, by simp, by simpa [List.disjoint_singleton] using hfresh⟩
  · simpa [submitItem] using h3
  · simpa [submitItem] using h4

theorem poolInv_wstep {W : Nat} {s t : PoolState} (h : PoolInv s)
    (hs : WStep W s t) : PoolInv t := by
  obtain ⟨h1, h2, h3, h4⟩ := h
  cases hs with
  | start w it q hw hidle hq =>
    refine ⟨?_, ?_, ?_, ?_⟩
    · simp [startItem, h1, hq]
    · simpa [startItem] using h2
    · have step1 : (s.started ++ [it]).Perm
          ((s.finished ++ s.running.map Prod.snd) ++ [it]) :=
        h3.append_right [it]
      have step2 : (s.finished ++ s.running.map Prod.snd) ++ [it]
          = s.finished ++ (s.running ++ [(w, it)]).map Prod.snd := by
        simp [List.append_assoc]
      simpa [startItem, step2] using step1
    · simpa [startItem] using h4
  | finish w it hrun =>
    refine ⟨?_, ?_, ?_, ?_⟩
    · simpa [finishItem] using h1
    · simpa [finishItem] using h2
    · have hperm : s.running.Perm ((w, it) :: removePair s.running (w, it)) :=
        perm_cons_removePair hrun
      have step1 : s.started.Perm
          (s.finished ++ ((w, it) :: removePair s.running (w, it)).map Prod.snd) :=
        h3.trans ((hperm.map Prod.snd).append_left s.finished)
      have step2 : s.finished ++ ((w, it) :: removePair s.running (w, it)).map Prod.snd
          = (s.finished ++ [it]) ++ (removePair s.running (w, it)).map Prod.snd := by
        simp
      simpa [finishItem, step2] using step1
    · simp [finishItem, h4]

theorem poolInv_pstep {W : Nat} {s t : PoolState} (h : PoolInv s)
    (hs : PStep W s t) : PoolInv t := by
  cases hs with
  | work hw => exact poolInv_wstep h hw
  | submit it hfresh => exact poolInv_submit h it hfresh

theorem reach_poolInv {W : Nat} {s : PoolState} (h : Reach W s) : PoolInv s := by
  induction h with
  | init => exact poolInv_init
  | step h hs ih => exact poolInv_pstep ih hs

/-- In any state satisfying the invariant, the ids of items whose execution
has started are pairwise distinct. -/
theorem poolInv_started_ids_nodup {s : PoolState} (h : PoolInv s) :
    (s.started.map WorkItem.id).Nodup := by
  have := h.ids_nodup
  rw [h.submitted_eq, List.map_append, List.nodup_append] at this
  exact this.1

/-- In any state satisfying the invariant, the ids of currently running items
are pairwise distinct, so no item is concurrently executed by two workers. -/
theorem poolInv_running_ids_nodup {s : PoolState} (h : PoolInv s) :
    (s.running.map (fun p => p.2.id)).Nodup := by
  have hnd : ((s.finished ++ s.running.map Prod.snd).map WorkItem.id).Nodup :=
    (h.started_perm.map WorkItem.id).nodup_iff.mp (poolInv_started_ids_nodup h)
  rw [List.map_append, List.nodup_append] at hnd
  have := hnd.2.1
  simpa [List.map_map, Function.comp] using this

/-- In any state satisfying the invariant, each completion promise has been
fulfilled at most once. -/
theorem poolInv_count_le_one {s : PoolState} (h : PoolInv s) (i : Nat) :
    s.fulfilled.count i ≤ 1 := by
  have hnd : ((s.finished ++ s.running.map Prod.snd).map WorkItem.id).Nodup :=
    (h.started_perm.map WorkItem.id).nodup_iff.mp (poolInv_started_ids_nodup h)
  rw [List.map_append, List.nodup_append] at hnd
  rw [h.fulfilled_eq]
  exact List.nodup_iff_count_le_one.mp hnd.1 i

theorem wstep_submitted_eq {W : Nat} {p q : PoolState} (h : WStep W p q) :
    q.submitted = p.submitted := by
  cases h with
  | start w it l hw hidle hq => simp [startItem]
  | finish w it hrun => simp [finishItem]

theorem wstep_fulfilled_append {W : Nat} {p q : PoolState} (h : WStep W p q) :
    ∃ l, q.fulfilled = p.fulfilled ++ l := by
  cases h with
  | start w it l hw hidle hq => exact ⟨[], by simp [startItem]⟩
  | finish w it hrun => exact ⟨[it.id], by simp [finishItem]⟩

/-- A fulfilled-exactly-once promise stays fulfilled exactly once across a
worker step, because fulfillment events only accumulate and the invariant
bounds each count by one. -/
theorem wstep_count_eq_one {W : Nat} {p q : PoolState} (h : WStep W p q)
    (hq : PoolInv q) {i : Nat} (h1 : p.fulfilled.count i = 1) :
    q.fulfilled.count i = 1 := by
  obtain ⟨l, hl⟩ := wstep_fulfilled_append h
  have hle : q.fulfilled.count i ≤ 1 := poolInv_count_le_one hq i
  have hge : 1 ≤ q.fulfilled.count i := by
    rw [hl, List.count_append, h1]
    omega
  omega

theorem dreach_inv {W k b : Nat} (hk : 0 < k) {s : DState}
    (h : DReach W k b s) : DInv k b s := by
  induction h with
  | init =>
    refine ⟨poolInv_init, hk, by simp [initPool]⟩
  | step h hs ih =>
    obtain ⟨hpool, hctl⟩ := ih
    cases hs with
    | work c hw =>
      refine ⟨poolInv_wstep hpool hw, ?_⟩
      have hsub := wstep_submitted_eq hw
      cases c with
      | submitting j =>
        exact ⟨hctl.1, by rw [hsub]; exact hctl.2⟩
      | waiting j =>
        exact ⟨hctl.1, by rw [hsub]; exact hctl.2.1,
          fun i hi => wstep_count_eq_one hw (poolInv_wstep hpool hw)
            (hctl.2.2 i hi)⟩
      | returned =>
        exact ⟨by rw [hsub]; exact hctl.1,
          fun i hi => wstep_count_eq_one hw (poolInv_wstep hpool hw)
            (hctl.2 i hi)⟩
    | submitMid j p hjk =>
      have hp : PoolInv p := hpool
      obtain ⟨hj, hsub⟩ := hctl
      have hsub' : p.submitted = (List.range j).map (dispItem b) := hsub
      have hfresh : (dispItem b j).id ∉ p.submitted.map WorkItem.id := by
        rw [hsub']
        simp [dispItem, List.map_map, Function.comp]
      refine ⟨poolInv_submit hp _ hfresh, by omega, ?_⟩
      show (submitItem p (dispItem b j)).submitted = _
      simp [submitItem, hsub', List.range_succ]
    | submitLast j p hjk =>
      have hp : PoolInv p := hpool
      obtain ⟨hj, hsub⟩ := hctl
      have hsub' : p.submitted = (List.range j).map (dispItem b) := hsub
      have hfresh : (dispItem b j).id ∉ p.submitted.map WorkItem.id := by
        rw [hsub']
        simp [dispItem, List.map_map, Function.comp]
      refine ⟨poolInv_submit hp _ hfresh, by omega, ?_, by omega⟩
      show (submitItem p (dispItem b j)).submitted = _
      rw [← hjk]
      simp [submitItem, hsub', List.range_succ]
    | waitMid j p hjk hf =>
      have hp : PoolInv p := hpool
      obtain ⟨hj, hsub, hcnt⟩ := hctl
      refine ⟨hp, by omega, hsub, fun i hi => ?_⟩
      show p.fulfilled.count i = 1
      rcases Nat.lt_or_ge i j with hij | hij
      · exact hcnt i hij
      · have hij' : i = j := by omega
        subst hij'
        have := poolInv_count_le_one hp i
        omega
    | waitLast j p hjk hf =>
      have hp : PoolInv p := hpool
      obtain ⟨hj, hsub, hcnt⟩ := hctl
      refine ⟨hp, hsub, fun i hi => ?_⟩
      show p.fulfilled.count i = 1
      rcases Nat.lt_or_ge i j with hij | hij
      · exact hcnt i hij
      · have hij' : i = j := by omega
        subst hij'
        have := poolInv_count_le_one hp i
        omega

/-- C1: for every test body and every thread count `k > 0`,
`launch_test_on_threads` submits exactly `k` trap-wrapped copies of the body
to the thread pool with one completion promise per submission, and any state
in which the call has returned has every one of the `k` completion promises
fulfilled exactly once — no early return and no double fulfillment. -/
theorem launch_test_on_threads_barrier (W k b : Nat) (hk : 0 < k)
    (s : DState) (h : DReach W k b s) (hret : s.ctl = DispCtl.returned) :
    s.pool.submitted = (List.range k).map (dispItem b) ∧
    ∀ j < k, s.pool.fulfilled.count j = 1 := by
  obtain ⟨c, p⟩ := s
  cases c with
  | submitting j => simp at hret
  | waiting j => simp at hret
  | returned =>
    obtain ⟨hpool, hsub, hcnt⟩ := dreach_inv hk h
    exact ⟨hsub, hcnt⟩

/-- Concrete run of the dispatcher system: one thread, one worker, body 5. -/
theorem dreach_exDisp4 : DReach 1 1 5 exDisp4 := by
  have h0 : DReach 1 1 5 ⟨DispCtl.submitting 0, initPool⟩ := DReach.init
  have h1 : DReach 1 1 5 ⟨DispCtl.waiting 0, exDispPool1⟩ :=
    DReach.step h0 (LTStep.submitLast 0 initPool rfl)
  have h2 : DReach 1 1 5 ⟨DispCtl.waiting 0, exDispPool2⟩ :=
    DReach.step h1 (LTStep.work (DispCtl.waiting 0)
      (WStep.start 0 (dispItem 5 0) [] (by decide) (by decide) (by decide)))
  have h3 : DReach 1 1 5 ⟨DispCtl.waiting 0, exDispPool3⟩ :=
    DReach.step h2 (LTStep.work (DispCtl.waiting 0)
      (WStep.finish 0 (dispItem 5 0) (by decide)))
  exact DReach.step h3 (LTStep.waitLast 0 exDispPool3 rfl (by decide))

theorem launch_test_on_threads_barrier_witness :
    exDisp4.pool.submitted = (List.range 1).map (dispItem 5) ∧
    ∀ j < 1, exDisp4.pool.fulfilled.count j = 1 :=
  launch_test_on_threads_barrier 1 1 5 (by decide) exDisp4 dreach_exDisp4 rfl

/-- C2: the signal/exception trap converts a thrown error into exactly one
recorded failure carrying the error's message and returns normally, and
every invocation emits exactly one pass/fail record — never zero, never
more than one. -/
theorem trap_catches_exceptions (b : BodyOutcome) (alarm : Bool) (m : String) :
    (catch_signals_and_exceptions_as_failures b alarm).length = 1 ∧
    catch_signals_and_exceptions_as_failures (BodyOutcome.thrown m) alarm
      = [{ passed := false, message := m }] := by
  constructor
  · cases b <;> rfl
  · rfl

theorem reset_index_eq (p : stream_pool) (d s i : Nat) :
    (p.reset d s).index i
      = (if i < d then
          some ((List.range s).map (fun j => ((i, j) : StreamHandle)))
         else none) := by
  by_cases hid : i < d
  · simp [stream_pool.index, stream_pool.reset, List.getElem?_map,
      List.getElem?_range, hid]
  · rw [if_neg hid]
    apply List.getElem?_eq_none
    simpa [stream_pool.reset] using Nat.le_of_not_lt hid

theorem reset_shape (p : stream_pool) (d s : Nat) :
    (p.reset d s).m_streams.map List.length = List.replicate d s := by
  simp [stream_pool.reset, List.map_map, Function.comp_def, List.length_map,
    List.length_range, List.map_const']

/-- C3: after `stream_pool::reset(d, s)` the pool holds exactly `d`
per-device slots of exactly `s` streams each; indexing a device id below `d`
yields that device's `s` streams, indexing at or beyond `d` fails with an
out-of-bounds error, and `reset(0, 0)` — the destructor's default call —
releases every held stream. -/
theorem stream_pool_reset_spec (p : stream_pool) (d s i : Nat) :
    (p.reset d s).m_streams.length = d ∧
    (p.reset d s).m_streams.map List.length = List.replicate d s ∧
    (p.reset d s).index i
      = (if i < d then
          some ((List.range s).map (fun j => ((i, j) : StreamHandle)))
         else none) ∧
    (p.reset 0 0).m_streams = [] := by
  refine ⟨?_, reset_shape p d s, reset_index_eq p d s i, ?_⟩
  · simp [stream_pool.reset]
  · simp [stream_pool.reset]

/-- C4: in every reachable pool state, the items whose execution has started
form, in order, a prefix of the submission order (FIFO start order), no item
ever starts executing twice, and no two running entries share an item — so
no submitted work item is executed by more than one worker; completion order
is unconstrained by the model. -/
theorem thread_pool_fifo_unique (W : Nat) (s : PoolState) (h : Reach W s) :
    s.submitted = s.started ++ s.queue ∧
    (s.started.map WorkItem.id).Nodup ∧
    (s.running.map (fun p => p.2.id)).Nodup := by
  have hinv := reach_poolInv h
  exact ⟨hinv.submitted_eq, poolInv_started_ids_nodup hinv,
    poolInv_running_ids_nodup hinv⟩

/-- Concrete reachable pool state: two submissions, one started. -/
theorem reach_exPool3 : Reach 1 exPool3 := by
  have h1 : Reach 1 exPool1 :=
    Reach.step Reach.init (PStep.submit exItemA (by decide))
  have h2 : Reach 1 exPool2 :=
    Reach.step h1 (PStep.submit exItemB (by decide))
  exact Reach.step h2 (PStep.work
    (WStep.start 0 exItemA [exItemB] (by decide) (by decide) (by decide)))

theorem thread_pool_fifo_unique_witness :
    exPool3.submitted = exPool3.started ++ exPool3.queue ∧
    (exPool3.started.map WorkItem.id).Nodup ∧
    (exPool3.running.map (fun p => p.2.id)).Nodup :=
  thread_pool_fifo_unique 1 exPool3 reach_exPool3

/-- C5: destroying the pool from any reachable state sets the stop flag,
joins every worker (none is abandoned mid-task: each running item is
completed), empties the queue, and fulfills the completion signal of every
submitted item exactly once — queued-but-unstarted items' signals are
fulfilled as cancellation no-ops rather than silently dropped.  The
destructor is a total function of the state, modelling that it never
throws. -/
theorem thread_pool_shutdown_spec (W : Nat) (s : PoolState) (h : Reach W s) :
    (destroyPool s).done = true ∧
    (destroyPool s).running = [] ∧
    (destroyPool s).queue = [] ∧
    (∀ p ∈ s.running, p.2 ∈ (destroyPool s).finished) ∧
    (∀ it ∈ s.submitted, (destroyPool s).fulfilled.count it.id = 1) := by
  have hinv := reach_poolInv h
  refine ⟨rfl, rfl, rfl, ?_, ?_⟩
  · intro p hp
    show p.2 ∈ s.finished ++ s.running.map Prod.snd
    exact List.mem_append_right _ (List.mem_map_of_mem _ hp)
  · intro it hit
    show ((s.fulfilled ++ (s.running.map Prod.snd).map WorkItem.id)
        ++ s.queue.map WorkItem.id).count it.id = 1
    have hstep1 : (s.started.map WorkItem.id).Perm
        (s.finished.map WorkItem.id
          ++ (s.running.map Prod.snd).map WorkItem.id) := by
      simpa [List.map_append] using hinv.started_perm.map WorkItem.id
    have hperm : ((s.fulfilled ++ (s.running.map Prod.snd).map WorkItem.id)
        ++ s.queue.map WorkItem.id).Perm (s.submitted.map WorkItem.id) := by
      rw [hinv.fulfilled_eq, hinv.submitted_eq, List.map_append]
      exact hstep1.symm.append_right (s.queue.map WorkItem.id)
    rw [hperm.count_eq]
    exact List.count_eq_one_of_mem hinv.ids_nodup
      (List.mem_map_of_mem WorkItem.id hit)

theorem thread_pool_shutdown_spec_witness :
    (destroyPool exPool3).done = true ∧
    (destroyPool exPool3).running = [] ∧
    (destroyPool exPool3).queue = [] ∧
    (∀ p ∈ exPool3.running, p.2 ∈ (destroyPool exPool3).finished) ∧
    (∀ it ∈ exPool3.submitted,
      (destroyPool exPool3).fulfilled.count it.id = 1) :=
  thread_pool_shutdown_spec 1 exPool3 reach_exPool3

theorem requestN_table (s : String) (n : Nat) (hn : 1 ≤ n) :
    (requestN s n).1 = [(s, n)] ∧
    (requestN s n).2 = (if n = 1 then s else s ++ "_" ++ toString n) := by
  induction n with
  | zero => omega
  | succ m ih =>
    by_cases hm : m = 0
    · subst hm
      constructor
      · simp [requestN, RocSparseLt_TestName_to_string, findCount]
      · simp [requestN, RocSparseLt_TestName_to_string, findCount]
    · obtain ⟨ht, _⟩ := ih (by omega)
      constructor
      · simp [requestN, RocSparseLt_TestName_to_string, ht, findCount, setCount]
      · rw [if_neg (by omega)]
        simp [requestN, RocSparseLt_TestName_to_string, ht, findCount]

/-- C6: the identity builder's first request for a finalized string returns
it unchanged (storing count 1); the `N`-th request of the same string from
the same table (`N ≥ 2`) returns it with an underscore and `N` appended, so
two requests from one table yield distinct strings; and a request against a
different table not containing the string returns it unchanged again — no
cross-table interference. -/
theorem testname_identity_dedup (s : String) (N : Nat) (hN : 1 ≤ N)
    (t : List (String × Nat)) (ht : findCount t s = none) :
    (requestN s N).2 = (if N = 1 then s else s ++ "_" ++ toString N) ∧
    (requestN s 2).2 ≠ (requestN s 1).2 ∧
    RocSparseLt_TestName_to_string t s = (t ++ [(s, 1)], s) := by
  refine ⟨(requestN_table s N hN).2, ?_, ?_⟩
  · rw [(requestN_table s 2 (by omega)).2, (requestN_table s 1 (by omega)).2]
    rw [if_neg (by omega), if_pos rfl]
    intro hcontra
    have hlen := congrArg String.length hcontra
    rw [String.length_append, String.length_append] at hlen
    have h1 : ("_" : String).length = 1 := rfl
    have h2 : (toString (2 : Nat)).length = 1 := rfl
    rw [h1, h2] at hlen
    omega
  · simp [RocSparseLt_TestName_to_string, ht]

theorem testname_identity_dedup_witness :
    (requestN "gemm" 2).2 = (if 2 = 1 then "gemm" else "gemm" ++ "_" ++ toString 2) ∧
    (requestN "gemm" 2).2 ≠ (requestN "gemm" 1).2 ∧
    RocSparseLt_TestName_to_string [("other", 3)] "gemm"
      = ([("other", 3)] ++ [("gemm", 1)], "gemm") :=
  testname_identity_dedup "gemm" 2 (by omega) [("other", 3)] (by decide)

/-- C7: evaluation of the `RUN_TEST_ON_THREADS_STREAMS` macro at the failing
input.  With two available devices where device 0 lacks managed-memory
support and device 1 has it, a request for 1 device with HMM set proceeds to
reset the stream pool and dispatch instead of skipping: the loop queries
device ordinal `devices` (the count) instead of the loop index, so the
unsupported requested device 0 goes undetected.  With `devices` equal to the
available count, the query targets a nonexistent ordinal and the test fails
via `CHECK_HIP_ERROR` instead of skipping. -/
theorem run_test_macro_queries_wrong_device :
    runTestOnThreadsStreams [false, true] ⟨0, 1, 1, true⟩
      = TestOutcome.dispatched false 1 1 ∧
    ([false, true])[0]? = some false ∧
    runTestOnThreadsStreams [true, true] ⟨0, 1, 2, true⟩
      = TestOutcome.hipErrorFailure := by
  decide

/-- C8: `launch_test_on_streams(body, numStreams, numDevices)` performs the
same stream-pool setup as the thread dispatcher — `numDevices` slots of
`numStreams` streams each, indexable below `numDevices` and failing beyond —
and executes the body, wrapped by the trap, exactly once on the calling
thread (exactly one record is emitted, equal to one trap invocation). -/
theorem launch_test_on_streams_spec (b : BodyOutcome) (nS nD : Nat)
    (p : stream_pool) (i : Nat) :
    (launch_test_on_streams b nS nD p).1.m_streams.map List.length
      = List.replicate nD nS ∧
    (launch_test_on_streams b nS nD p).1.index i
      = (if i < nD then
          some ((List.range nS).map (fun j => ((i, j) : StreamHandle)))
         else none) ∧
    (launch_test_on_streams b nS nD p).2.length = 1 ∧
    (launch_test_on_streams b nS nD p).2
      = catch_signals_and_exceptions_as_failures b false := by
  refine ⟨reset_shape p nD nS, reset_index_eq p nD nS i, ?_, rfl⟩
  cases b <;> rfl

end HipSparseLtTest

namespace HipSparseLtLib

theorem computeTypeOk_iff (t : rocsparselt_datatype)
    (ct : rocsparselt_compute_type) :
    computeTypeOk t ct = true ↔ ct = claimedRequiredCompute t := by
  cases t <;> cases ct <;> decide

theorem typeChain_iff (a b c d : rocsparselt_datatype) :
    (a ≠ b ∨ a ≠ c ∨ a ≠ d) ↔ ¬ (a = b ∧ b = c ∧ c = d) := by
  cases a <;> cases b <;> cases c <;> cases d <;> decide

/-- C9: with a non-null handle and non-null descriptor pointers,
`rocsparselt_matmul_descr_init` returns `not_implemented` when `matA` is not
structured or `matB` is not dense; otherwise `invalid_value` when the value
types of the four matrices are not all equal or the compute type is not
`f32` for bf16/bf8/f16/f8 inputs respectively `i32` for i8 inputs; and only
when every check passes does it allocate a matmul descriptor and return
`success`. -/
theorem matmul_descr_init_matches_claim (opA opB : rocsparse_operation)
    (mA mB mC mD : _rocsparselt_mat_descr) (ct : rocsparselt_compute_type) :
    (rocsparselt_matmul_descr_init (some ()) true opA opB (some mA) (some mB)
        (some mC) (some mD) ct).1 = claimedMatmulInitStatus mA mB mC mD ct ∧
    (rocsparselt_matmul_descr_init (some ()) true opA opB (some mA) (some mB)
        (some mC) (some mD) ct).2
      = (if claimedMatmulInitStatus mA mB mC mD ct = rocsparse_status.success
         then some ⟨opA, opB, mA, mB, mC, mD, ct⟩ else none) := by
  have c1 : ¬ (true = false) := by decide
  by_cases hmt : mA.m_type = rocsparselt_matrix_type.structured
      ∧ mB.m_type = rocsparselt_matrix_type.dense
  · have c2 : ¬ (mA.m_type ≠ rocsparselt_matrix_type.structured
        ∨ mB.m_type ≠ rocsparselt_matrix_type.dense) := by
      rintro (h | h)
      · exact h hmt.1
      · exact h hmt.2
    by_cases hty : mA.type = mB.type ∧ mB.type = mC.type ∧ mC.type = mD.type
    · have c3 : ¬ (mA.type ≠ mB.type ∨ mA.type ≠ mC.type ∨ mA.type ≠ mD.type) := by
        rintro (h | h | h)
        · exact h hty.1
        · exact h (hty.1.trans hty.2.1)
        · exact h ((hty.1.trans hty.2.1).trans hty.2.2)
      by_cases hcc : ct = claimedRequiredCompute mA.type
      · have hok := (computeTypeOk_iff mA.type ct).mpr hcc
        have c4 : ¬ (computeTypeOk mA.type ct = false) := by simp [hok]
        have hclaim : claimedMatmulInitStatus mA mB mC mD ct
            = rocsparse_status.success := by
          simp only [claimedMatmulInitStatus]
          rw [if_neg (not_not_intro hmt), if_neg (not_not_intro hty),
            if_neg (not_not_intro hcc)]
        constructor
        · rw [hclaim]
          simp only [rocsparselt_matmul_descr_init]
          rw [if_neg c1, if_neg c2, if_neg c3, if_neg c4]
        · rw [hclaim, if_pos rfl]
          simp only [rocsparselt_matmul_descr_init]
          rw [if_neg c1, if_neg c2, if_neg c3, if_neg c4]
      · have c4 : computeTypeOk mA.type ct = false := by
          cases hb : computeTypeOk mA.type ct with
          | false => rfl
          | true => exact absurd ((computeTypeOk_iff mA.type ct).mp hb) hcc
        have hclaim : claimedMatmulInitStatus mA mB mC mD ct
            = rocsparse_status.invalid_value := by
          simp only [claimedMatmulInitStatus]
          rw [if_neg (not_not_intro hmt), if_neg (not_not_intro hty),
            if_pos hcc]
        constructor
        · rw [hclaim]
          simp only [rocsparselt_matmul_descr_init]
          rw [if_neg c1, if_neg c2, if_neg c3, if_pos c4]
        · rw [hclaim, if_neg (by decide)]
          simp only [rocsparselt_matmul_descr_init]
          rw [if_neg c1, if_neg c2, if_neg c3, if_pos c4]
    · have c3 : (mA.type ≠ mB.type ∨ mA.type ≠ mC.type ∨ mA.type ≠ mD.type) :=
        (typeChain_iff mA.type mB.type mC.type mD.type).mpr hty
      have hclaim : claimedMatmulInitStatus mA mB mC mD ct
          = rocsparse_status.invalid_value := by
        simp only [claimedMatmulInitStatus]
        rw [if_neg (not_not_intro hmt), if_pos hty]
      constructor
      · rw [hclaim]
        simp only [rocsparselt_matmul_descr_init]
        rw [if_neg c1, if_neg c2, if_pos c3]
      · rw [hclaim, if_neg (by decide)]
        simp only [rocsparselt_matmul_descr_init]
        rw [if_neg c1, if_neg c2, if_pos c3]
  · have c2 : (mA.m_type ≠ rocsparselt_matrix_type.structured
        ∨ mB.m_type ≠ rocsparselt_matrix_type.dense) := by
      by_cases hA : mA.m_type = rocsparselt_matrix_type.structured
      · right
        intro hB
        exact hmt ⟨hA, hB⟩
      · exact Or.inl hA
    have hclaim : claimedMatmulInitStatus mA mB mC mD ct
        = rocsparse_status.not_implemented := by
      simp only [claimedMatmulInitStatus]
      rw [if_pos hmt]
    constructor
    · rw [hclaim]
      simp only [rocsparselt_matmul_descr_init]
      rw [if_neg c1, if_pos c2]
    · rw [hclaim, if_neg (by decide)]
      simp only [rocsparselt_matmul_descr_init]
      rw [if_neg c1, if_pos c2]

/-- C10: with a valid handle, descriptor and data pointer and a positive
`dataSize`, `rocsparselt_mat_descr_get_attribute` copies exactly
`min(dataSize, stored data_size)` bytes of the stored attribute into the
caller's buffer and returns `success`; a buffer smaller than the stored
attribute truncates silently and is never reported as an error. -/
theorem mat_descr_get_attribute_truncates (d : _rocsparselt_mat_descr)
    (a : rocsparselt_mat_descr_attribute) (buf : List Nat) (n : Nat)
    (hn : 0 < n) :
    rocsparselt_mat_descr_get_attribute (some ()) (some d) a (some buf) n
      = (rocsparse_status.success,
         some ((attributesGet d a).data.take (min n (attributesGet d a).data_size)
               ++ buf.drop (min n (attributesGet d a).data_size))) := by
  have hne : n ≠ 0 := by omega
  simp [rocsparselt_mat_descr_get_attribute, hne, memcpyList]

theorem mat_descr_get_attribute_truncates_witness :
    rocsparselt_mat_descr_get_attribute (some ()) (some exMat)
        rocsparselt_mat_descr_attribute.mat_num_batches (some [0, 0]) 2
      = (rocsparse_status.success,
         some ((attributesGet exMat rocsparselt_mat_descr_attribute.mat_num_batches).data.take
                 (min 2 (attributesGet exMat rocsparselt_mat_descr_attribute.mat_num_batches).data_size)
               ++ [0, 0].drop
                 (min 2 (attributesGet exMat rocsparselt_mat_descr_attribute.mat_num_batches).data_size))) :=
  mat_descr_get_attribute_truncates exMat
    rocsparselt_mat_descr_attribute.mat_num_batches [0, 0] 2 (by decide)

end HipSparseLtLib
